import Mathlib

set_option maxHeartbeats 1000000

/-!
Verification of the CMake orchestration module of `cli_assist`
(`src/cmake.rs`, `src/lib.rs`).

The pure logic of the module is embedded shallowly:

* external tool invocations (`Command::new(...).status()/.output()`) and
  filesystem existence checks are abstracted into a `ToolEnv` record of
  boolean outcomes, one per phase, which `process` threads through exactly
  the source's sequence of `if status && flag` guards;
* the `regex` crate is modelled by a small executable engine (`RE`) over
  the fragment of its syntax this program exercises (literal characters,
  `.`, `|`, `(...)`, `*`, `+`, `?`); `RE.compile` returning `none` models
  `Regex::new` returning `Err` (and hence an `unwrap` panic at the call
  sites); matching is unanchored search, as `Regex::is_match` is;
* fallible operations that the source `unwrap`s/`expect`s are embedded in
  `Option`, `none` standing for the panic.
-/

namespace CliAssist

/-- Abstract syntax for the fragment of the regex collaborator (the Rust
`regex` crate) that this program exercises: literal characters, the dot,
alternation, concatenation, grouping and the `*`/`+`/`?` postfix
operators.  `empty` denotes the empty language; it arises from failed
character derivatives. -/
inductive RE where
  | empty : RE
  | eps : RE
  | char : Char → RE
  | dot : RE
  | alt : RE → RE → RE
  | cat : RE → RE → RE
  | star : RE → RE
deriving DecidableEq, Repr

/-- Does the regex accept the empty string? -/
def RE.nullable : RE → Bool
  | .empty => false
  | .eps => true
  | .char _ => false
  | .dot => false
  | .alt a b => a.nullable || b.nullable
  | .cat a b => a.nullable && b.nullable
  | .star _ => true

/-- Brzozowski derivative of a regex by one character. -/
def RE.deriv : RE → Char → RE
  | .empty, _ => .empty
  | .eps, _ => .empty
  | .char c, d => if c = d then .eps else .empty
  | .dot, _ => .eps
  | .alt a b, d => .alt (a.deriv d) (b.deriv d)
  | .cat a b, d =>
    if a.nullable then .alt (.cat (a.deriv d) b) (b.deriv d)
    else .cat (a.deriv d) b
  | .star a, d => .cat (a.deriv d) (.star a)

/-- Does `r` match some (possibly empty) prefix of `cs`? -/
def RE.matchHere : RE → List Char → Bool
  | r, [] => r.nullable
  | r, c :: cs => r.nullable || RE.matchHere (r.deriv c) cs

/-- Unanchored search: does `r` match some substring of `cs`?  This is the
semantics of `Regex::is_match`. -/
def RE.search : RE → List Char → Bool
  | r, [] => r.nullable
  | r, c :: cs => RE.matchHere r (c :: cs) || RE.search r cs

/-- `Regex::is_match` on a string. -/
def RE.isMatch (r : RE) (s : String) : Bool := RE.search r s.data

/-- Parser modes for the recursive-descent pattern parser:
alternation, concatenation, postfix operators, atoms. -/
inductive PMode where
  | palt : PMode
  | pcat : PMode
  | ppost : PMode
  | patom : PMode
deriving DecidableEq, Repr

/-- Consume any run of postfix repetition operators after an atom. -/
def postOps : RE → List Char → RE × List Char
  | r, '*' :: rest => postOps (RE.star r) rest
  | r, '+' :: rest => postOps (RE.cat r (RE.star r)) rest
  | r, '?' :: rest => postOps (RE.alt r RE.eps) rest
  | r, cs => (r, cs)

/-- Fuelled recursive-descent parser for the regex fragment.  Syntax
outside the modelled fragment (character classes, repetition braces,
anchors, alphanumeric escapes) is rejected, as is genuinely malformed
syntax such as an unclosed group. -/
def parseRE : Nat → PMode → List Char → Option (RE × List Char)
  | 0, _, _ => none
  | Nat.succ f, .palt, cs =>
    match parseRE f .pcat cs with
    | none => none
    | some (l, rest) =>
      match rest with
      | '|' :: rest2 =>
        match parseRE f .palt rest2 with
        | none => none
        | some (r, rest3) => some (RE.alt l r, rest3)
      | _ => some (l, rest)
  | Nat.succ f, .pcat, cs =>
    match cs with
    | [] => some (RE.eps, [])
    | ')' :: _ => some (RE.eps, cs)
    | '|' :: _ => some (RE.eps, cs)
    | _ =>
      match parseRE f .ppost cs with
      | none => none
      | some (r, rest) =>
        match parseRE f .pcat rest with
        | none => none
        | some (r2, rest2) => some (RE.cat r r2, rest2)
  | Nat.succ f, .ppost, cs =>
    match parseRE f .patom cs with
    | none => none
    | some (r, rest) => some (postOps r rest)
  | Nat.succ f, .patom, cs =>
    match cs with
    | [] => none
    | '(' :: rest =>
      match parseRE f .palt rest with
      | none => none
      | some (r, rest2) =>
        match rest2 with
        | ')' :: rest3 => some (r, rest3)
        | _ => none
    | ')' :: _ => none
    | '|' :: _ => none
    | '*' :: _ => none
    | '+' :: _ => none
    | '?' :: _ => none
    | '[' :: _ => none
    | ']' :: _ => none
    | '\x7b' :: _ => none
    | '\x7d' :: _ => none
    | '^' :: _ => none
    | '$' :: _ => none
    | '\\' :: d :: rest => if d.isAlphanum then none else some (RE.char d, rest)
    | ['\\'] => none
    | '.' :: rest => some (RE.dot, rest)
    | c :: rest => some (RE.char c, rest)

/-- Model of `Regex::new`: parse the whole pattern; `none` models
`Regex::new` returning `Err` (so an `unwrap` at a call site panics). -/
def RE.compile (s : String) : Option RE :=
  match parseRE (4 * s.data.length + 8) .palt s.data with
  | some (r, []) => some r
  | _ => none

/-- The regex denoting exactly the literal word `w`. -/
def litRE (w : List Char) : RE :=
  w.foldr (fun c r => RE.cat (RE.char c) r) RE.eps

/-- Does `w` occur as a contiguous substring of `cs`? -/
def containsSub (w : List Char) : List Char → Bool
  | [] => w.isPrefixOf []
  | c :: cs => w.isPrefixOf (c :: cs) || containsSub w cs

/-- Line iteration of `BufRead::lines` over text (used by `search_tidy`
via `text.lines()` on a byte slice): split on the newline byte, strip a
carriage return only when it immediately precedes a newline, and yield no
trailing empty line for newline-terminated input.  `cur` is the current
line accumulated in reverse. -/
def rustLinesGo : List Char → List Char → List (List Char)
  | cur, [] => if cur.isEmpty then [] else [cur.reverse]
  | cur, c :: cs =>
    if c = '\n' then
      (match cur with
       | d :: cur2 => if d = '\r' then cur2.reverse else cur.reverse
       | [] => []) :: rustLinesGo [] cs
    else rustLinesGo (c :: cur) cs

/-- The lines of a text, with `BufRead::lines` semantics. -/
def rustLines (s : String) : List String :=
  (rustLinesGo [] s.data).map String.mk

/-- The fixed diagnostic pattern of `search_tidy` (src/cmake.rs line 262). -/
def tidyPattern : String := "error: |warning: "

/-- Embeds `search_tidy` (src/cmake.rs lines 260-272): split the captured
output into lines and concatenate the lines the diagnostic regex matches,
each followed by a newline.  `none` models the `unwrap` panic on a failed
regex compilation (the pattern is fixed and valid, so this never fires).
The input is taken as text: a byte input that is not valid UTF-8 makes the
source panic on `line.unwrap()` and is outside this embedding. -/
def search_tidy (text : String) : Option String :=
  match RE.compile tidyPattern with
  | none => none
  | some regex =>
    some ((rustLines text).foldl
      (fun acc line => if RE.isMatch regex line then acc ++ line ++ "\n" else acc)
      "")

/-- Rust `str::split(" ")` on the character list: split at every single
space, keeping empty segments; the empty string yields one empty segment. -/
def splitSpaces : List Char → List (List Char)
  | [] => [[]]
  | c :: cs =>
    if c = ' ' then [] :: splitSpaces cs
    else
      match splitSpaces cs with
      | [] => [[c]]
      | p :: ps => (c :: p) :: ps

/-- Rust `str::split(" ")` on a string. -/
def rustSplitSpace (s : String) : List String :=
  (splitSpaces s.data).map String.mk

/-- The inner loop of `find_cpp_files` (src/cmake.rs lines 178-184): for
one discovered file, compile every pattern in turn (`none` models the
`Regex::new(dir).unwrap()` panic on an invalid pattern) and accumulate
whether any pattern matched the file's path. -/
def checkPatterns (pats : List String) (file : String) : Option Bool :=
  pats.foldl
    (fun acc dir =>
      match acc with
      | none => none
      | some b =>
        match RE.compile dir with
        | none => none
        | some regex => some (b || RE.isMatch regex file))
    (some false)

/-- Embeds `find_cpp_files` (src/cmake.rs lines 167-192).  The glob walk
over `repo_root` is an external filesystem primitive; its result, the
ordered list of discovered `.cpp` paths, is the `all_cpp_glob` argument.
The pattern string is split on single spaces; a file is appended to the
result exactly when some pattern's regex matches its path; `none` models
the panic on an invalid pattern. -/
def find_cpp_files (exlude_dirs : String) (all_cpp_glob : List String) :
    Option (List String) :=
  let pats := rustSplitSpace exlude_dirs
  all_cpp_glob.foldl
    (fun acc file =>
      match acc with
      | none => none
      | some out =>
        match checkPatterns pats file with
        | none => none
        | some b => some (if b then out ++ [file] else out))
    (some [])

/-- Embeds `combine_artifact_path` (src/cmake.rs lines 253-258):
clone the build-directory string and `push_str` the suffix. -/
def combine_artifact_path (artifacts : String) (text : String) : String :=
  artifacts ++ text

/-- The parsed CLI flags (struct `CmakeVars`, src/cmake.rs lines 13-50). -/
structure CmakeVars where
  destroy : Bool
  configure : Bool
  build : Bool
  test : Bool
  coverage : Bool
  install : Bool
  target : Option String
  tidy : Bool
  release : Bool
deriving DecidableEq, Repr

/-- The request with every flag off and no target. -/
def CmakeVars.default : CmakeVars :=
  ⟨false, false, false, false, false, false, none, false, false⟩

/-- The distinct tool phases `process` can invoke, in source order.
`destroy` is the `remove_dir_all` call; each other phase is one external
tool invocation. -/
inductive Phase where
  | destroy : Phase
  | clean : Phase
  | configure : Phase
  | build : Phase
  | target : Phase
  | test : Phase
  | coverage : Phase
  | tidy : Phase
  | install : Phase
deriving DecidableEq, Repr

/-- Abstraction of the external world `process` consults: whether the
build directory exists at the initial check, whether it still exists
after a failed destroy (a successful `remove_dir_all` removes it), and
the success/failure outcome each tool phase would report if invoked. -/
structure ToolEnv where
  exists0 : Bool
  existsAfterFailedDestroy : Bool
  destroyOk : Bool
  cleanOk : Bool
  configureOk : Bool
  buildOk : Bool
  targetOk : Bool
  testOk : Bool
  coverageOk : Bool
  tidyOk : Bool
  installOk : Bool
deriving DecidableEq, Repr

/-- The effective phase flags that `process` computes up front
(src/cmake.rs lines 61-74). -/
structure Resolved where
  cmake_target : String
  target : Bool
  release : Bool
  install : Bool
  coverage : Bool
  tidy : Bool
  test : Bool
  build : Bool
  configure : Bool
deriving DecidableEq, Repr

/-- Embeds the flag-cascade of `process` (src/cmake.rs lines 61-74),
verbatim: the target option is unpacked to a name plus presence bit, then
each effective flag is an OR of the requested flag and the downstream
flags that require it. -/
def resolvePhases (cmds : CmakeVars) : Resolved :=
  let (cmake_target, target) :=
    match cmds.target with
    | some cmake_target => (cmake_target, true)
    | none => ("", false)
  let release := cmds.release
  let install := cmds.install
  let coverage := cmds.coverage
  let tidy := cmds.tidy
  let test := cmds.test || coverage
  let build := cmds.build || test || install || tidy
  let configure := cmds.configure || build || release || target || tidy
  ⟨cmake_target, target, release, install, coverage, tidy, test, build, configure⟩

/-- The destroy step of `process` (src/cmake.rs lines 57-59): only when
the flag is set and the directory exists is `destroy_cmake` called and its
outcome stored in the status accumulator. -/
def stDestroy (cmds : CmakeVars) (env : ToolEnv) : List Phase × Bool :=
  if cmds.destroy && env.exists0 then ([Phase.destroy], env.destroyOk)
  else ([], true)

/-- Whether the build directory exists at the clean-phase check
(src/cmake.rs line 76): a successful destroy removed it; a failed destroy
leaves the environment's word for it; otherwise the initial state stands. -/
def dirExistsAtClean (cmds : CmakeVars) (env : ToolEnv) : Bool :=
  if cmds.destroy && env.exists0 then
    (if env.destroyOk then false else env.existsAfterFailedDestroy)
  else env.exists0

/-- The guard of the clean step (src/cmake.rs line 76): a target named
"clean" was supplied and the build directory exists.  Note the source does
not consult the status accumulator here. -/
def cleanRunsB (cmds : CmakeVars) (env : ToolEnv) : Bool :=
  (resolvePhases cmds).target &&
    ((resolvePhases cmds).cmake_target == "clean") &&
    dirExistsAtClean cmds env

/-- State after the clean step of `process` (src/cmake.rs lines 76-80):
when the guard holds, `clean_cmake` runs and its outcome overwrites the
status accumulator, whatever it was. -/
def stClean (cmds : CmakeVars) (env : ToolEnv) : List Phase × Bool :=
  if cleanRunsB cmds env then ((stDestroy cmds env).1 ++ [Phase.clean], env.cleanOk)
  else stDestroy cmds env

/-- One status-gated phase of `process`: `if status && flag { status =
phase(...) }`, recording the invocation when it fires. -/
def phaseStep (cond : Bool) (p : Phase) (ok : Bool) (st : List Phase × Bool) :
    List Phase × Bool :=
  if st.2 && cond then (st.1 ++ [p], ok) else st

/-- The seven status-gated phases of `process` (src/cmake.rs lines
82-108) in source order — configure, build, named target unless it is
"clean", test, coverage, tidy, install — applied to the state left by the
destroy and clean steps. -/
def runPhases (env : ToolEnv) (r : Resolved) (st : List Phase × Bool) :
    List Phase × Bool :=
  phaseStep r.install Phase.install env.installOk
    (phaseStep r.tidy Phase.tidy env.tidyOk
      (phaseStep r.coverage Phase.coverage env.coverageOk
        (phaseStep r.test Phase.test env.testOk
          (phaseStep (r.target && !(r.cmake_target == "clean")) Phase.target env.targetOk
            (phaseStep r.build Phase.build env.buildOk
              (phaseStep r.configure Phase.configure env.configureOk st))))))

/-- Embeds `process` (src/cmake.rs lines 52-111): the destroy and clean
steps followed by the seven status-gated phases.  The returned list is
the phases invoked, in order; the returned boolean is the final status
accumulator that the last line prints. -/
def process (cmds : CmakeVars) (env : ToolEnv) : List Phase × Bool :=
  runPhases env (resolvePhases cmds) (stClean cmds env)

/-- The final line `process` prints (src/cmake.rs line 110), with Rust's
`Display` rendering of the boolean. -/
def statusLine (b : Bool) : String :=
  "CMake finished with: " ++ (if b then "true" else "false")

/-- Observable outcome of `run` (src/lib.rs lines 19-27) on a parsed
cmake subcommand: `process` prints the status line and returns `()`; `run`
returns `()`; so a run that completes without a panic terminates the
process normally, with exit code 0, whatever the printed status was.  The
pair is (printed status line, process exit code). -/
def runResult (cmds : CmakeVars) (env : ToolEnv) : String × Nat :=
  (statusLine (process cmds env).2, 0)

/-- A line carries a diagnostic exactly when it contains the substring
"error: " or the substring "warning: " (case-sensitive). -/
def hasDiagLine (line : String) : Bool :=
  containsSub (String.data ("error: ")) line.data ||
    containsSub (String.data ("warning: ")) line.data

/-- Concatenation of lines, each followed by a newline, in order. -/
def diagConcat (ls : List String) : String :=
  ls.foldl (fun acc l => acc ++ l ++ "\n") ""

theorem litRE_nil : litRE [] = RE.eps := rfl

theorem litRE_cons (c : Char) (w : List Char) :
    litRE (c :: w) = RE.cat (RE.char c) (litRE w) := rfl

theorem matchHere_empty (cs : List Char) : RE.matchHere RE.empty cs = false := by
  induction cs with
  | nil => rfl
  | cons c cs ih => simp [RE.matchHere, RE.deriv, RE.nullable, ih]

theorem matchHere_alt (a b : RE) (cs : List Char) :
    RE.matchHere (RE.alt a b) cs = (RE.matchHere a cs || RE.matchHere b cs) := by
  induction cs generalizing a b with
  | nil => simp [RE.matchHere, RE.nullable]
  | cons c cs ih =>
    simp only [RE.matchHere, RE.nullable, RE.deriv, ih]
    cases a.nullable <;> cases b.nullable <;>
      simp [Bool.or_assoc, Bool.or_comm, Bool.or_left_comm]

theorem matchHere_cat_empty (r : RE) (cs : List Char) :
    RE.matchHere (RE.cat RE.empty r) cs = false := by
  induction cs with
  | nil => simp [RE.matchHere, RE.nullable]
  | cons c cs ih => simp [RE.matchHere, RE.nullable, RE.deriv, ih]

theorem matchHere_cat_eps (r : RE) (cs : List Char) :
    RE.matchHere (RE.cat RE.eps r) cs = RE.matchHere r cs := by
  cases cs with
  | nil => simp [RE.matchHere, RE.nullable]
  | cons c cs =>
    simp [RE.matchHere, RE.nullable, RE.deriv, matchHere_alt, matchHere_cat_empty]

theorem matchHere_lit (w cs : List Char) :
    RE.matchHere (litRE w) cs = w.isPrefixOf cs := by
  induction w generalizing cs with
  | nil =>
    cases cs <;> simp [litRE_nil, RE.matchHere, RE.nullable, List.isPrefixOf]
  | cons c w ih =>
    cases cs with
    | nil => simp [litRE_cons, RE.matchHere, RE.nullable, List.isPrefixOf]
    | cons d cs =>
      by_cases h : c = d
      · subst h
        rw [litRE_cons]
        have hd : (RE.cat (RE.char c) (litRE w)).deriv c = RE.cat RE.eps (litRE w) := by
          simp [RE.deriv, RE.nullable]
        simp only [RE.matchHere, hd, matchHere_cat_eps, RE.nullable, Bool.false_and,
          Bool.false_or]
        simp [ih, List.isPrefixOf]
      · simp [litRE_cons, RE.matchHere, RE.nullable, RE.deriv, List.isPrefixOf, h,
          matchHere_cat_empty]

theorem search_alt (a b : RE) (cs : List Char) :
    RE.search (RE.alt a b) cs = (RE.search a cs || RE.search b cs) := by
  induction cs with
  | nil => simp [RE.search, RE.nullable]
  | cons c cs ih =>
    simp only [RE.search, matchHere_alt, ih]
    cases RE.matchHere a (c :: cs) <;> cases RE.matchHere b (c :: cs) <;>
      simp [Bool.or_assoc, Bool.or_comm, Bool.or_left_comm]

theorem litRE_nullable (w : List Char) :
    (litRE w).nullable = w.isPrefixOf [] := by
  cases w <;> rfl

theorem search_lit (w cs : List Char) :
    RE.search (litRE w) cs = containsSub w cs := by
  induction cs with
  | nil => simp [RE.search, containsSub, litRE_nullable]
  | cons c cs ih => simp [RE.search, containsSub, matchHere_lit, ih]

theorem search_eps_true (cs : List Char) : RE.search RE.eps cs = true := by
  cases cs with
  | nil => rfl
  | cons c cs => simp [RE.search, RE.matchHere, RE.nullable]

theorem tidy_compile :
    RE.compile tidyPattern =
      some (RE.alt (litRE (String.data ("error: "))) (litRE (String.data ("warning: ")))) := by
  decide

theorem tidy_isMatch (line : String) :
    RE.isMatch (RE.alt (litRE (String.data ("error: "))) (litRE (String.data ("warning: "))))
        line = hasDiagLine line := by
  simp [RE.isMatch, hasDiagLine, search_alt, search_lit]

theorem foldl_diag_filter (p : String → Bool) (ls : List String) (acc : String) :
    ls.foldl (fun a l => if p l then a ++ l ++ "\n" else a) acc =
      (ls.filter p).foldl (fun a l => a ++ l ++ "\n") acc := by
  induction ls generalizing acc with
  | nil => rfl
  | cons l ls ih =>
    by_cases h : p l <;> simp [List.foldl, List.filter_cons, h, ih]

theorem checkPatterns_go_none (pats : List String) (file : String) :
    pats.foldl
      (fun acc dir =>
        match acc with
        | none => none
        | some b =>
          match RE.compile dir with
          | none => none
          | some regex => some (b || RE.isMatch regex file))
      none = none := by
  induction pats with
  | nil => rfl
  | cons p ps ih => simpa [List.foldl] using ih

theorem checkPatterns_go (file : String) (pats : List String) (b0 b : Bool)
    (h : pats.foldl
      (fun acc dir =>
        match acc with
        | none => none
        | some b =>
          match RE.compile dir with
          | none => none
          | some regex => some (b || RE.isMatch regex file))
      (some b0) = some b) :
    b = true ↔
      (b0 = true ∨ ∃ p ∈ pats, ∃ r, RE.compile p = some r ∧ RE.isMatch r file = true) := by
  induction pats generalizing b0 with
  | nil =>
    simp only [List.foldl, Option.some.injEq] at h
    subst h
    simp
  | cons p ps ih =>
    simp only [List.foldl] at h
    cases hc : RE.compile p with
    | none =>
      rw [hc] at h
      rw [checkPatterns_go_none] at h
      exact absurd h (by simp)
    | some r =>
      rw [hc] at h
      have := ih (b0 || RE.isMatch r file) h
      rw [this]
      constructor
      · rintro (hb | ⟨q, hq, s, hs, hm⟩)
        · rcases Bool.or_eq_true_iff.mp hb with hb0 | hm
          · exact Or.inl hb0
          · exact Or.inr ⟨p, List.mem_cons_self p ps, r, hc, hm⟩
        · exact Or.inr ⟨q, List.mem_cons_of_mem p hq, s, hs, hm⟩
      · rintro (hb0 | ⟨q, hq, s, hs, hm⟩)
        · exact Or.inl (by simp [hb0])
        · rcases List.mem_cons.mp hq with rfl | hq
          · rw [hc] at hs
            cases hs
            exact Or.inl (by simp [hm])
          · exact Or.inr ⟨q, hq, s, hs, hm⟩

theorem checkPatterns_some (pats : List String) (file : String) (b : Bool)
    (h : checkPatterns pats file = some b) :
    b = true ↔ ∃ p ∈ pats, ∃ r, RE.compile p = some r ∧ RE.isMatch r file = true := by
  have := checkPatterns_go file pats false b h
  simpa using this

theorem find_go_none (pats : List String) (files : List String) :
    files.foldl
      (fun acc file =>
        match acc with
        | none => none
        | some out =>
          match checkPatterns pats file with
          | none => none
          | some b => some (if b then out ++ [file] else out))
      none = none := by
  induction files with
  | nil => rfl
  | cons f fs ih => simpa [List.foldl] using ih

theorem find_go (pats : List String) (files : List String) (acc out : List String)
    (h : files.foldl
      (fun acc file =>
        match acc with
        | none => none
        | some out =>
          match checkPatterns pats file with
          | none => none
          | some b => some (if b then out ++ [file] else out))
      (some acc) = some out) (f : String) :
    f ∈ out ↔
      f ∈ acc ∨ (f ∈ files ∧
        ∃ p ∈ pats, ∃ r, RE.compile p = some r ∧ RE.isMatch r f = true) := by
  induction files generalizing acc with
  | nil =>
    simp only [List.foldl, Option.some.injEq] at h
    subst h
    simp
  | cons g gs ih =>
    simp only [List.foldl] at h
    cases hc : checkPatterns pats g with
    | none =>
      rw [hc] at h
      rw [find_go_none] at h
      exact absurd h (by simp)
    | some b =>
      rw [hc] at h
      have hb := checkPatterns_some pats g b hc
      cases b with
      | false =>
        have hmem := ih acc (by simpa using h)
        rw [hmem]
        constructor
        · rintro (hin | ⟨hgs, hmatch⟩)
          · exact Or.inl hin
          · exact Or.inr ⟨List.mem_cons_of_mem g hgs, hmatch⟩
        · rintro (hin | ⟨hfg, hmatch⟩)
          · exact Or.inl hin
          · rcases List.mem_cons.mp hfg with rfl | hgs
            · exact absurd (hb.mpr hmatch) (by simp)
            · exact Or.inr ⟨hgs, hmatch⟩
      | true =>
        have hmem := ih (acc ++ [g]) (by simpa using h)
        rw [hmem]
        constructor
        · rintro (hin | ⟨hgs, hmatch⟩)
          · rcases List.mem_append.mp hin with hin | hin
            · exact Or.inl hin
            · rcases List.mem_singleton.mp hin with rfl
              exact Or.inr ⟨List.mem_cons_self f gs, hb.mp rfl⟩
          · exact Or.inr ⟨List.mem_cons_of_mem g hgs, hmatch⟩
        · rintro (hin | ⟨hfg, hmatch⟩)
          · exact Or.inl (List.mem_append.mpr (Or.inl hin))
          · rcases List.mem_cons.mp hfg with rfl | hgs
            · exact Or.inl (List.mem_append.mpr (Or.inr (List.mem_singleton.mpr rfl)))
            · exact Or.inr ⟨hgs, hmatch⟩

theorem checkPatterns_empty_pattern (f : String) :
    checkPatterns (rustSplitSpace ("")) f = some true := by
  have h0 : rustSplitSpace ("") = [""] := rfl
  have h1 : RE.compile ("") = some RE.eps := rfl
  rw [h0]
  simp [checkPatterns, List.foldl, h1, RE.isMatch, search_eps_true]

theorem phaseStep_of_false (c : Bool) (p : Phase) (ok : Bool) (st : List Phase × Bool)
    (h : st.2 = false) : phaseStep c p ok st = st := by
  simp [phaseStep, h]

theorem phaseStep_mem (c : Bool) (p q : Phase) (ok : Bool) (st : List Phase × Bool)
    (h : q ∈ (phaseStep c p ok st).1) : q ∈ st.1 ∨ q = p := by
  unfold phaseStep at h
  split at h
  · simp only [List.mem_append, List.mem_singleton] at h
    exact h
  · exact Or.inl h

theorem stClean_mem (cmds : CmakeVars) (env : ToolEnv) (q : Phase)
    (h : q ∈ (stClean cmds env).1) : q = Phase.destroy ∨ q = Phase.clean := by
  by_cases h1 : cleanRunsB cmds env = true <;>
    by_cases h2 : (cmds.destroy && env.exists0) = true <;>
      simp [stClean, stDestroy, h1, h2] at h <;> tauto

theorem runPhases_frozen (env : ToolEnv) (r : Resolved) (st : List Phase × Bool)
    (h : st.2 = false) : runPhases env r st = st := by
  simp [runPhases, phaseStep, h]

theorem runPhases_build_fail (env : ToolEnv) (r : Resolved) (st : List Phase × Bool)
    (hst : ∀ q ∈ st.1, q = Phase.destroy ∨ q = Phase.clean)
    (hb : env.buildOk = false)
    (hmem : Phase.build ∈ (runPhases env r st).1) :
    (runPhases env r st).2 = false ∧
      Phase.test ∉ (runPhases env r st).1 ∧ Phase.coverage ∉ (runPhases env r st).1 ∧
      Phase.tidy ∉ (runPhases env r st).1 ∧ Phase.install ∉ (runPhases env r st).1 := by
  have mem3 : ∀ q ∈ (phaseStep r.configure Phase.configure env.configureOk st).1,
      q = Phase.destroy ∨ q = Phase.clean ∨ q = Phase.configure := by
    intro q hq
    rcases phaseStep_mem _ _ _ _ _ hq with h | h
    · rcases hst q h with h1 | h1
      · exact Or.inl h1
      · exact Or.inr (Or.inl h1)
    · exact Or.inr (Or.inr h)
  cases hfire : ((phaseStep r.configure Phase.configure env.configureOk st).2 && r.build) with
  | false =>
    exfalso
    have hstb : phaseStep r.build Phase.build env.buildOk
        (phaseStep r.configure Phase.configure env.configureOk st) =
        phaseStep r.configure Phase.configure env.configureOk st := by
      rw [phaseStep, if_neg]
      simp [hfire]
    simp only [runPhases] at hmem
    rw [hstb] at hmem
    rcases phaseStep_mem _ _ _ _ _ hmem with hmem | h
    rotate_left
    · exact Phase.noConfusion h
    rcases phaseStep_mem _ _ _ _ _ hmem with hmem | h
    rotate_left
    · exact Phase.noConfusion h
    rcases phaseStep_mem _ _ _ _ _ hmem with hmem | h
    rotate_left
    · exact Phase.noConfusion h
    rcases phaseStep_mem _ _ _ _ _ hmem with hmem | h
    rotate_left
    · exact Phase.noConfusion h
    rcases phaseStep_mem _ _ _ _ _ hmem with hmem | h
    rotate_left
    · exact Phase.noConfusion h
    rcases mem3 _ hmem with h1 | h1 | h1 <;> exact Phase.noConfusion h1
  | true =>
    have hstb : phaseStep r.build Phase.build env.buildOk
        (phaseStep r.configure Phase.configure env.configureOk st) =
        ((phaseStep r.configure Phase.configure env.configureOk st).1 ++ [Phase.build],
          false) := by
      rw [phaseStep, if_pos]
      · rw [hb]
      · simp [hfire]
    have heq : runPhases env r st =
        ((phaseStep r.configure Phase.configure env.configureOk st).1 ++ [Phase.build],
          false) := by
      simp only [runPhases]
      rw [hstb]
      generalize (phaseStep r.configure Phase.configure env.configureOk st).1 = l
      simp [phaseStep]
    rw [heq]
    refine ⟨rfl, ?_, ?_, ?_, ?_⟩
    all_goals
      intro hq
      rcases List.mem_append.mp hq with h | h
      · rcases mem3 _ h with h1 | h1 | h1 <;> exact Phase.noConfusion h1
      · exact Phase.noConfusion (List.mem_singleton.mp h)

theorem process_build_fail (cmds : CmakeVars) (env : ToolEnv)
    (hmem : Phase.build ∈ (process cmds env).1) (hb : env.buildOk = false) :
    (process cmds env).2 = false ∧ Phase.test ∉ (process cmds env).1 ∧
      Phase.coverage ∉ (process cmds env).1 ∧ Phase.tidy ∉ (process cmds env).1 ∧
      Phase.install ∉ (process cmds env).1 :=
  runPhases_build_fail env (resolvePhases cmds) (stClean cmds env)
    (stClean_mem cmds env) hb hmem

theorem process_destroy_fail (cmds : CmakeVars) (env : ToolEnv)
    (hd : cmds.destroy = true) (he : env.exists0 = true) (hf : env.destroyOk = false)
    (hc : cleanRunsB cmds env = false) :
    process cmds env = ([Phase.destroy], false) := by
  have h1 : stClean cmds env = ([Phase.destroy], false) := by
    simp [stClean, stDestroy, hc, hd, he, hf]
  show runPhases env (resolvePhases cmds) (stClean cmds env) = ([Phase.destroy], false)
  rw [h1]
  exact runPhases_frozen env _ _ rfl

theorem find_foldl_all_match (pats : List String)
    (hall : ∀ f, checkPatterns pats f = some true) (files : List String) :
    ∀ acc : List String,
      files.foldl
        (fun acc file =>
          match acc with
          | none => none
          | some out =>
            match checkPatterns pats file with
            | none => none
            | some b => some (if b then out ++ [file] else out))
        (some acc) = some (acc ++ files) := by
  induction files with
  | nil => intro acc; simp
  | cons f fs ih =>
    intro acc
    simp [List.foldl_cons, hall f, ih (acc ++ [f])]

/-- C1 (amended): once a status-gated phase fails, the accumulator is
false and no subsequent phase executes; in particular when the build
phase is invoked and its tool fails, the test, coverage, tidy and
install phases are not invoked and the final reported status is false.
The clean phase, however, is not gated on the accumulator, so a destroy
failure prevents all later phases only when the clean phase does not run
(no "clean" target with the directory still present); in that case the
run ends with only the destroy phase invoked and final status false. -/
theorem c1_short_circuit (cmds : CmakeVars) (env : ToolEnv) :
    (Phase.build ∈ (process cmds env).1 → env.buildOk = false →
      (process cmds env).2 = false ∧ Phase.test ∉ (process cmds env).1 ∧
        Phase.coverage ∉ (process cmds env).1 ∧ Phase.tidy ∉ (process cmds env).1 ∧
        Phase.install ∉ (process cmds env).1) ∧
    (cmds.destroy = true → env.exists0 = true → env.destroyOk = false →
      cleanRunsB cmds env = false → process cmds env = ([Phase.destroy], false)) :=
  ⟨fun hmem hb => process_build_fail cmds env hmem hb,
   fun hd he hf hc => process_destroy_fail cmds env hd he hf hc⟩

/-- Witness for the amended C1 at concrete inputs: a build-only request
whose build tool fails ends with status false, and a destroy-only
request whose directory removal fails runs nothing else. -/
theorem c1_short_circuit_witness :
    (process ⟨false, false, true, false, false, false, none, false, false⟩
        ⟨false, false, true, true, true, false, true, true, true, true, true⟩).2 = false ∧
      process ⟨true, false, false, false, false, false, none, false, false⟩
        ⟨true, true, false, true, true, true, true, true, true, true, true⟩ =
        ([Phase.destroy], false) :=
  ⟨((c1_short_circuit ⟨false, false, true, false, false, false, none, false, false⟩
      ⟨false, false, true, true, true, false, true, true, true, true, true⟩).1
      (by decide) rfl).1,
   (c1_short_circuit ⟨true, false, false, false, false, false, none, false, false⟩
      ⟨true, true, false, true, true, true, true, true, true, true, true⟩).2
      rfl rfl rfl (by decide)⟩

/-- C1 counterexample: destroy is requested and fails (the directory
survives) while target "clean" is supplied; the clean phase then runs
after the failed destroy and overwrites the accumulator, and configure
runs afterwards — contradicting the claim that after a destroy failure
none of the later phases execute. -/
theorem c1_counterexample :
    process ⟨true, false, false, false, false, false, some "clean", false, false⟩
        ⟨true, true, false, true, true, true, true, true, true, true, true⟩ =
      ([Phase.destroy, Phase.clean, Phase.configure], true) ∧
    Phase.clean ∈
      (process ⟨true, false, false, false, false, false, some "clean", false, false⟩
        ⟨true, true, false, true, true, true, true, true, true, true, true⟩).1 := by
  constructor <;> decide

/-- C2: for every request, the effective phase flags satisfy the
monotonic dependency invariant: coverage implies test, test implies
build, build implies configure, install implies build, tidy implies
build, and a supplied target name implies configure. -/
theorem c2_resolver_monotone (cmds : CmakeVars) :
    ((resolvePhases cmds).coverage = true → (resolvePhases cmds).test = true) ∧
      ((resolvePhases cmds).test = true → (resolvePhases cmds).build = true) ∧
      ((resolvePhases cmds).build = true → (resolvePhases cmds).configure = true) ∧
      ((resolvePhases cmds).install = true → (resolvePhases cmds).build = true) ∧
      ((resolvePhases cmds).tidy = true → (resolvePhases cmds).build = true) ∧
      ((resolvePhases cmds).target = true → (resolvePhases cmds).configure = true) := by
  obtain ⟨d, c, b, t, cov, i, tg, ty, rl⟩ := cmds
  cases tg <;> simp [resolvePhases] <;> tauto

/-- Witness for C2 at a concrete input: requesting only coverage makes
the resolved test flag true. -/
theorem c2_resolver_monotone_witness :
    (resolvePhases ⟨false, false, false, false, true, false, none, false, false⟩).test =
      true :=
  (c2_resolver_monotone ⟨false, false, false, false, true, false, none, false, false⟩).1 rfl

/-- C3 counterexample: the claim says an empty exclusion list yields an
empty result for every tree, but on a tree with one .cpp file the code
returns that file: splitting the empty string yields one empty pattern,
whose regex matches every path. -/
theorem c3_counterexample :
    find_cpp_files ("") ["/repo/a.cpp"] = some ["/repo/a.cpp"] ∧
      find_cpp_files ("") ["/repo/a.cpp"] ≠ some [] := by
  constructor <;> decide

/-- C3 (amended): when the exclusion string is empty (TIDY_EXCLUDE unset
or empty), Rust's split yields the single empty pattern, the empty
pattern compiles to a regex that matches every path, and
`find_cpp_files` therefore returns every discovered file, for every
tree. -/
theorem c3_empty_pattern_selects_all (files : List String) :
    find_cpp_files ("") files = some files := by
  have h := find_foldl_all_match (rustSplitSpace ("")) checkPatterns_empty_pattern files []
  simpa [find_cpp_files] using h

/-- C4 counterexample: a run in which the build phase fails prints the
failure line yet still exits with code 0, contradicting the claim that
the exit code is non-zero when an executed phase failed. -/
theorem c4_counterexample :
    process ⟨false, false, true, false, false, false, none, false, false⟩
        ⟨false, false, true, true, true, false, true, true, true, true, true⟩ =
      ([Phase.configure, Phase.build], false) ∧
    runResult ⟨false, false, true, false, false, false, none, false, false⟩
        ⟨false, false, true, true, true, false, true, true, true, true, true⟩ =
      ("CMake finished with: false", 0) := by
  constructor <;> decide

/-- C4 (amended): a single final line reporting the boolean outcome is
printed, but the exit code of a run that completes without a fatal abort
is always 0, whether or not a phase failed: `process` only prints the
status and returns unit, and `run` returns unit. -/
theorem c4_exit_code_always_zero (cmds : CmakeVars) (env : ToolEnv) :
    (runResult cmds env).2 = 0 ∧
      ((runResult cmds env).1 = "CMake finished with: true" ↔
        (process cmds env).2 = true) := by
  refine ⟨rfl, ?_⟩
  cases h : (process cmds env).2 <;> simp only [runResult, statusLine, h] <;> decide

/-- C5: whenever `find_cpp_files` returns a result, a file is in the
result exactly when it was discovered and its path matches at least one
of the independently compiled exclusion patterns: the patterns select
files rather than filter them out. -/
theorem c5_patterns_select (exlude_dirs : String) (files out : List String)
    (h : find_cpp_files exlude_dirs files = some out) (f : String) :
    f ∈ out ↔ f ∈ files ∧
      ∃ p ∈ rustSplitSpace exlude_dirs, ∃ r, RE.compile p = some r ∧
        RE.isMatch r f = true := by
  have hgo := find_go (rustSplitSpace exlude_dirs) files [] out (by exact h) f
  simpa using hgo

/-- Witness for C5 at a concrete input: with the single pattern "foo",
the file whose path contains "foo" is retained and is the whole result. -/
theorem c5_patterns_select_witness :
    ("/repo/foo/a.cpp" ∈ (["/repo/foo/a.cpp"] : List String)) ↔
      ("/repo/foo/a.cpp" ∈ (["/repo/foo/a.cpp", "/repo/b.cpp"] : List String) ∧
        ∃ p ∈ rustSplitSpace ("foo"), ∃ r, RE.compile p = some r ∧
          RE.isMatch r ("/repo/foo/a.cpp") = true) :=
  c5_patterns_select ("foo") ["/repo/foo/a.cpp", "/repo/b.cpp"] ["/repo/foo/a.cpp"]
    (by decide) "/repo/foo/a.cpp"

/-- C6: `search_tidy` splits its input into lines and returns exactly
the lines containing the substring "error: " or "warning: ", each
followed by a newline, in original order; on the four sample lines the
output is exactly the two diagnostic lines. -/
theorem c6_search_tidy_extracts :
    (∀ text : String,
        search_tidy text = some (diagConcat ((rustLines text).filter hasDiagLine))) ∧
      search_tidy ("a: note: x\nb: error: y\nc: warning: z\nd: info: w\n") =
        some ("b: error: y\nc: warning: z\n") := by
  constructor
  · intro text
    unfold search_tidy
    rw [tidy_compile]
    dsimp only
    unfold diagConcat
    rw [← foldl_diag_filter hasDiagLine (rustLines text) ("")]
    have hfun : (fun (acc : String) (line : String) =>
        if RE.isMatch (RE.alt (litRE (String.data ("error: ")))
            (litRE (String.data ("warning: ")))) line then acc ++ line ++ "\n" else acc) =
        (fun (acc : String) (line : String) =>
          if hasDiagLine line then acc ++ line ++ "\n" else acc) := by
      funext acc line
      rw [tidy_isMatch]
    rw [hfun]
  · decide

/-- C7: requesting only target "clean" when the build directory does not
exist invokes neither the clean tool nor build/target: the run is
exactly one configure invocation whose outcome is the final status, so
the missing directory causes no failure. -/
theorem c7_clean_target_without_dir (env : ToolEnv) (h : env.exists0 = false) :
    process ⟨false, false, false, false, false, false, some "clean", false, false⟩ env =
      ([Phase.configure], env.configureOk) := by
  simp [process, runPhases, stClean, stDestroy, cleanRunsB, dirExistsAtClean,
    resolvePhases, phaseStep, h]

/-- Witness for C7 at a concrete environment with a succeeding configure
tool: the run is one configure invocation and reports success. -/
theorem c7_clean_target_without_dir_witness :
    process ⟨false, false, false, false, false, false, some "clean", false, false⟩
        ⟨false, false, true, true, true, true, true, true, true, true, true⟩ =
      ([Phase.configure], true) :=
  c7_clean_target_without_dir
    ⟨false, false, true, true, true, true, true, true, true, true, true⟩ rfl

/-- C8: `combine_artifact_path` is the pure concatenation of the build
directory string and the suffix, total and without normalization; in
particular on "/out" and "/ClangTidy/log.txt" it yields
"/out/ClangTidy/log.txt". -/
theorem c8_combine_artifact_path :
    (∀ artifacts text : String,
        combine_artifact_path artifacts text = artifacts ++ text) ∧
      combine_artifact_path ("/out") ("/ClangTidy/log.txt") = "/out/ClangTidy/log.txt" :=
  ⟨fun artifacts text => rfl, by decide⟩

/-- C9: an exclusion list containing the invalid regex fragment "(" makes
`find_cpp_files` abort — modelled by `none`, the `unwrap` panic on the
failed `Regex::new` — rather than skip the pattern or return an error
value, as soon as a file is scanned against it. -/
theorem c9_invalid_pattern_panics :
    RE.compile ("(") = none ∧ find_cpp_files ("(") ["/repo/a.cpp"] = none := by
  constructor <;> decide

/-- C10: the request with every flag false and no target executes no
phase and reports overall success: the invocation trace is empty, the
printed line reports true, and the exit code is 0. -/
theorem c10_default_request_noop (env : ToolEnv) :
    process CmakeVars.default env = ([], true) ∧
      runResult CmakeVars.default env = ("CMake finished with: true", 0) := by
  have h1 : process CmakeVars.default env = ([], true) := by
    simp [process, runPhases, stClean, stDestroy, cleanRunsB, dirExistsAtClean,
      resolvePhases, CmakeVars.default, phaseStep]
  refine ⟨h1, ?_⟩
  simp only [runResult, statusLine, h1]
  decide

end CliAssist
